import Mathlib

/-!
# Resumify backend: response cleaning, JSON decoding and fallbacks

A shallow embedding of the request handlers of `src/index.js`.

* Text is modelled as `List Char`.  The regular expression and `trim` used by the
  handlers only inspect characters of the Basic Multilingual Plane, so working on
  code points instead of UTF-16 code units does not change which characters are
  removed.  String values are sequences of UTF-16 code units, as in JavaScript.
* The external collaborators (the generation provider, `pdf-parse`, `mammoth`,
  `Buffer.toString`, and the `JSON.stringify` used to build a prompt) are fields
  of an environment record `Env`.
* `JSON.parse` is modelled by `JSONparse`, a lexer followed by a stack parser for
  the JSON grammar of ECMA-404 / ECMA-262 §25.5.1.  Both are recursive on their
  input only, so `JSONparse` is total: `none` stands for the `SyntaxError`.
* A handler returns an `Outcome`: the status, the argument of `res.json`, and the
  prompts it sent to the provider.  Every `res.json` of a decoded value sits in the
  handler's outer `try`; when it throws (`Env.resJson` is `false`) the outer `catch`
  answers 500.

The main facts: `JSON.parse` is insensitive to `trim` on the texts it accepts
(`JSONparse_trim`), the cleaner only trims a text without three back-ticks
(`cleanText_eq_trim_of_no_fence`), and a valid text wrapped in a fenced block still
decodes after cleaning (`JSONparse_cleanText_fenced_isSome`).
-/

namespace Resumify

/-! ## The response cleaner: `text.replace(/```json\n?|\n?```/g, "").trim()` -/

/-- The three back-ticks of a code fence. -/
def fence : List Char := "```".toList

/-- The opening marker of a fenced block labelled as JSON. -/
def fenceJson : List Char := "```json".toList

/-- Line feed, the `\n` of the regular expression. -/
def lf : Char := Char.ofNat 10

/-- First alternative of the regular expression, ```` ```json\n? ````, tried at the start
of `s`: the length of the match.  The optional line feed is greedy. -/
def matchOpen (s : List Char) : Option Nat :=
  if fenceJson.isPrefixOf s then
    (if (s.drop 7).head? = some lf then some 8 else some 7)
  else none

/-- Second alternative of the regular expression, ```` \n?``` ````, tried at the start of
`s`: the length of the match.  The optional line feed is first taken and, when the
three back-ticks do not follow it, given back. -/
def matchClose (s : List Char) : Option Nat :=
  if s.head? = some lf && fence.isPrefixOf (s.drop 1) then some 4
  else if fence.isPrefixOf s then some 3
  else none

/-- The whole regular expression tried at the start of `s`; the alternatives are
ordered, the first one that matches wins. -/
def matchAt (s : List Char) : Option Nat :=
  match matchOpen s with
  | some n => some n
  | none => matchClose s

/-- Global replacement by the empty string, scanning left to right.  The first
argument counts the characters of the current match that are still to be
deleted; after a match the search resumes right behind it. -/
def replaceGo : Nat → List Char → List Char
  | _, [] => []
  | skip + 1, _ :: cs => replaceGo skip cs
  | 0, c :: cs =>
    match matchAt (c :: cs) with
    | some (n + 1) => replaceGo n cs
    | _ => c :: replaceGo 0 cs

/-- The call `text.replace(/```json\n?|\n?```/g, "")`. -/
def replaceFences (text : List Char) : List Char := replaceGo 0 text

/-- Code points removed by `String.prototype.trim`: the ECMAScript `WhiteSpace`
and `LineTerminator` productions. -/
def jsWhiteSpaceCodes : List Nat :=
  [9, 10, 11, 12, 13, 32, 160, 5760, 8192, 8193, 8194, 8195, 8196, 8197, 8198, 8199,
   8200, 8201, 8202, 8232, 8233, 8239, 8287, 12288, 65279]

/-- Whether `trim` removes the character. -/
def isJSWhiteSpace (c : Char) : Bool := jsWhiteSpaceCodes.contains c.toNat

/-- The leading half of `trim`. -/
def trimStart (s : List Char) : List Char := s.dropWhile isJSWhiteSpace

/-- The trailing half of `trim`. -/
def trimEnd (s : List Char) : List Char := (s.reverse.dropWhile isJSWhiteSpace).reverse

/-- The method `String.prototype.trim`. -/
def trim (s : List Char) : List Char := trimEnd (trimStart s)

/-- The value of `cleanedText` in every handler. -/
def cleanText (text : List Char) : List Char := trim (replaceFences text)

/-! ## JSON values -/

/-- JavaScript strings: sequences of UTF-16 code units. -/
abbrev JSString := List Nat

/-- The UTF-16 code units of one character. -/
def utf16 (c : Char) : List Nat :=
  if c.toNat < 65536 then [c.toNat]
  else [55296 + (c.toNat - 65536) / 1024, 56320 + (c.toNat - 65536) % 1024]

/-- The JavaScript string written as the given text. -/
def jsString : List Char → JSString
  | [] => []
  | c :: cs => utf16 c ++ jsString cs

/-- The JavaScript string of a string literal. -/
def js (s : String) : JSString := jsString s.toList

/-- A number as a JSON literal writes it: sign, the digits of the integer and fraction
parts read as one natural number, the count of fraction digits, and the exponent.
It denotes `± mantissa * 10 ^ (± exp - scale)`; JavaScript then rounds that value to
a double, which is not modelled. -/
structure JSNumber where
  neg : Bool
  mantissa : Nat
  scale : Nat
  expNeg : Bool
  exp : Nat
  deriving DecidableEq, Repr

/-- The number written as a plain natural-number literal. -/
def JSNumber.ofNat (n : Nat) : JSNumber := ⟨false, n, 0, false, 0⟩

/-- The values `JSON.parse` can return.  The properties of an object are kept in
insertion order; the order in which JavaScript later enumerates integer-like keys is
not modelled. -/
inductive JSValue where
  | null
  | bool (b : Bool)
  | num (n : JSNumber)
  | str (s : JSString)
  | arr (xs : List JSValue)
  | obj (ps : List (JSString × JSValue))
  deriving Repr

/-- Definition of a data property: an existing key keeps its place and takes the new
value, a new key is appended. -/
def setProp (ps : List (JSString × JSValue)) (k : JSString) (v : JSValue) :
    List (JSString × JSValue) :=
  match ps with
  | [] => [(k, v)]
  | (k', v') :: rest => if k' = k then (k', v) :: rest else (k', v') :: setProp rest k v

/-! ## `JSON.parse`: the lexer -/

/-- The tokens of the JSON grammar. -/
inductive Token where
  | lbrace | rbrace | lbracket | rbracket | colon | comma
  | str (s : JSString)
  | num (n : JSNumber)
  | litTrue | litFalse | litNull
  deriving DecidableEq, Repr

/-- States of the lexer.  Number states carry what has been read of the literal
`-? (0 | [1-9][0-9]*) (. [0-9]+)? ([eE] [+-]? [0-9]+)?`. -/
inductive LexState where
  /-- between tokens -/
  | start
  /-- inside a string, after the code units `acc` -/
  | inStr (acc : JSString)
  /-- inside a string, right after a backslash -/
  | esc (acc : JSString)
  /-- inside a `\u` escape, after `k` hexadecimal digits of value `code` -/
  | uni (acc : JSString) (k : Nat) (code : Nat)
  /-- inside the literal of `tok` (`true`, `false` or `null`), after `k` characters -/
  | lit (tok : Token) (k : Nat)
  /-- after the minus sign of a number -/
  | minus
  /-- after the single integer digit `0` -/
  | zero (neg : Bool)
  /-- after a non-zero digit and further integer digits -/
  | int (neg : Bool) (m : Nat)
  /-- after the decimal point, a digit is required -/
  | dot (neg : Bool) (m : Nat)
  /-- after at least one fraction digit -/
  | frac (neg : Bool) (m : Nat) (scale : Nat)
  /-- after `e` or `E`, a sign or a digit is required -/
  | expMark (neg : Bool) (m : Nat) (scale : Nat)
  /-- after the sign of the exponent, a digit is required -/
  | expSign (neg : Bool) (m : Nat) (scale : Nat) (eneg : Bool)
  /-- after at least one exponent digit -/
  | expDigits (neg : Bool) (m : Nat) (scale : Nat) (eneg : Bool) (e : Nat)
  deriving Repr

/-- JSON white space: space, tab, line feed, carriage return. -/
def isJSONWhiteSpace (c : Char) : Bool :=
  c.toNat = 32 || c.toNat = 9 || c.toNat = 10 || c.toNat = 13

/-- Value of a decimal digit. -/
def digitVal (c : Char) : Option Nat :=
  if 48 ≤ c.toNat ∧ c.toNat ≤ 57 then some (c.toNat - 48) else none

/-- Value of a hexadecimal digit, in either case. -/
def hexVal (c : Char) : Option Nat :=
  if 48 ≤ c.toNat ∧ c.toNat ≤ 57 then some (c.toNat - 48)
  else if 97 ≤ c.toNat ∧ c.toNat ≤ 102 then some (c.toNat - 87)
  else if 65 ≤ c.toNat ∧ c.toNat ≤ 70 then some (c.toNat - 55)
  else none

/-- The text of a literal name token. -/
def litText : Token → List Char
  | .litTrue => "true".toList
  | .litFalse => "false".toList
  | .litNull => "null".toList
  | _ => []

/-- One character read between tokens. -/
def lexStart (c : Char) : Option (LexState × List Token) :=
  if isJSONWhiteSpace c then some (.start, [])
  else if c.toNat = 123 then some (.start, [.lbrace])
  else if c.toNat = 125 then some (.start, [.rbrace])
  else if c.toNat = 91 then some (.start, [.lbracket])
  else if c.toNat = 93 then some (.start, [.rbracket])
  else if c.toNat = 58 then some (.start, [.colon])
  else if c.toNat = 44 then some (.start, [.comma])
  else if c.toNat = 34 then some (.inStr [], [])
  else if c.toNat = 45 then some (.minus, [])
  else if c.toNat = 48 then some (.zero false, [])
  else if c.toNat = 116 then some (.lit .litTrue 1, [])
  else if c.toNat = 102 then some (.lit .litFalse 1, [])
  else if c.toNat = 110 then some (.lit .litNull 1, [])
  else match digitVal c with
    | some d => some (.int false d, [])
    | none => none

/-- A number literal ends before `c`: its token is emitted and `c` is read between
tokens. -/
def lexFinish (n : JSNumber) (c : Char) : Option (LexState × List Token) :=
  match lexStart c with
  | some (q, out) => some (q, Token.num n :: out)
  | none => none

/-- The code unit an escape character stands for (`\"`, `\\`, `\/`, `\b`, `\f`, `\n`,
`\r`, `\t`). -/
def escapeVal (c : Char) : Option Nat :=
  if c.toNat = 34 then some 34
  else if c.toNat = 92 then some 92
  else if c.toNat = 47 then some 47
  else if c.toNat = 98 then some 8
  else if c.toNat = 102 then some 12
  else if c.toNat = 110 then some 10
  else if c.toNat = 114 then some 13
  else if c.toNat = 116 then some 9
  else none

/-- One step of the lexer: the next state and the tokens completed by the character. -/
def lexStep (q : LexState) (c : Char) : Option (LexState × List Token) :=
  match q with
  | .start => lexStart c
  | .inStr acc =>
    if c.toNat = 34 then some (.start, [.str acc])
    else if c.toNat = 92 then some (.esc acc, [])
    else if c.toNat < 32 then none
    else some (.inStr (acc ++ utf16 c), [])
  | .esc acc =>
    if c.toNat = 117 then some (.uni acc 0 0, [])
    else match escapeVal c with
      | some u => some (.inStr (acc ++ [u]), [])
      | none => none
  | .uni acc k code =>
    match hexVal c with
    | some d =>
      if k = 3 then some (.inStr (acc ++ [code * 16 + d]), [])
      else some (.uni acc (k + 1) (code * 16 + d), [])
    | none => none
  | .lit tok k =>
    match (litText tok).drop k with
    | [] => none
    | r :: rs =>
      if c = r then (if rs.isEmpty then some (.start, [tok]) else some (.lit tok (k + 1), []))
      else none
  | .minus =>
    if c.toNat = 48 then some (.zero true, [])
    else match digitVal c with
      | some d => some (.int true d, [])
      | none => none
  | .zero neg =>
    if c.toNat = 46 then some (.dot neg 0, [])
    else if c.toNat = 101 ∨ c.toNat = 69 then some (.expMark neg 0 0, [])
    else lexFinish ⟨neg, 0, 0, false, 0⟩ c
  | .int neg m =>
    match digitVal c with
    | some d => some (.int neg (m * 10 + d), [])
    | none =>
      if c.toNat = 46 then some (.dot neg m, [])
      else if c.toNat = 101 ∨ c.toNat = 69 then some (.expMark neg m 0, [])
      else lexFinish ⟨neg, m, 0, false, 0⟩ c
  | .dot neg m =>
    match digitVal c with
    | some d => some (.frac neg (m * 10 + d) 1, [])
    | none => none
  | .frac neg m scale =>
    match digitVal c with
    | some d => some (.frac neg (m * 10 + d) (scale + 1), [])
    | none =>
      if c.toNat = 101 ∨ c.toNat = 69 then some (.expMark neg m scale, [])
      else lexFinish ⟨neg, m, scale, false, 0⟩ c
  | .expMark neg m scale =>
    if c.toNat = 43 then some (.expSign neg m scale false, [])
    else if c.toNat = 45 then some (.expSign neg m scale true, [])
    else match digitVal c with
      | some d => some (.expDigits neg m scale false d, [])
      | none => none
  | .expSign neg m scale eneg =>
    match digitVal c with
    | some d => some (.expDigits neg m scale eneg d, [])
    | none => none
  | .expDigits neg m scale eneg e =>
    match digitVal c with
    | some d => some (.expDigits neg m scale eneg (e * 10 + d), [])
    | none => lexFinish ⟨neg, m, scale, eneg, e⟩ c

/-- End of input: only between tokens or at the end of a complete number. -/
def lexEnd (q : LexState) : Option (List Token) :=
  match q with
  | .start => some []
  | .zero neg => some [.num ⟨neg, 0, 0, false, 0⟩]
  | .int neg m => some [.num ⟨neg, m, 0, false, 0⟩]
  | .frac neg m scale => some [.num ⟨neg, m, scale, false, 0⟩]
  | .expDigits neg m scale eneg e => some [.num ⟨neg, m, scale, eneg, e⟩]
  | _ => none

/-- The lexer run from state `q`; `none` is a `SyntaxError`. -/
def lexRun : LexState → List Char → Option (List Token)
  | q, [] => lexEnd q
  | q, c :: cs =>
    match lexStep q c with
    | none => none
    | some (q', out) =>
      match lexRun q' cs with
      | none => none
      | some ts => some (out ++ ts)

/-- The tokens of a text. -/
def lex (text : List Char) : Option (List Token) := lexRun .start text

/-! ## `JSON.parse`: the parser -/

/-- An enclosing array or object whose next element is being read. -/
inductive Frame where
  /-- an array with the elements read so far -/
  | arr (elems : List JSValue)
  /-- an object with the properties read so far and the key whose value is due -/
  | obj (props : List (JSString × JSValue)) (key : JSString)

/-- States of the parser. -/
inductive PState where
  /-- a value must start -/
  | value (stk : List Frame)
  /-- right after `[`: a value or `]` -/
  | arrFirst (stk : List Frame)
  /-- after an element: `,` or `]` -/
  | arrNext (elems : List JSValue) (stk : List Frame)
  /-- right after `{`: a key or `}` -/
  | objFirst (stk : List Frame)
  /-- after `,` in an object: a key -/
  | objKey (props : List (JSString × JSValue)) (stk : List Frame)
  /-- after a key: `:` -/
  | objColon (props : List (JSString × JSValue)) (key : JSString) (stk : List Frame)
  /-- after a member: `,` or `}` -/
  | objNext (props : List (JSString × JSValue)) (stk : List Frame)
  /-- the text's value is complete -/
  | finished (v : JSValue)

/-- A value is complete: it goes into the enclosing array or object, if any. -/
def complete (v : JSValue) (stk : List Frame) : PState :=
  match stk with
  | [] => .finished v
  | .arr elems :: stk' => .arrNext (elems ++ [v]) stk'
  | .obj props key :: stk' => .objNext (setProp props key v) stk'

/-- The first token of a value. -/
def startValue (stk : List Frame) (t : Token) : Option PState :=
  match t with
  | .lbracket => some (.arrFirst stk)
  | .lbrace => some (.objFirst stk)
  | .str s => some (complete (.str s) stk)
  | .num n => some (complete (.num n) stk)
  | .litTrue => some (complete (.bool true) stk)
  | .litFalse => some (complete (.bool false) stk)
  | .litNull => some (complete .null stk)
  | _ => none

/-- One step of the parser. -/
def parseStep (p : PState) (t : Token) : Option PState :=
  match p, t with
  | .value stk, t => startValue stk t
  | .arrFirst stk, .rbracket => some (complete (.arr []) stk)
  | .arrFirst stk, t => startValue (.arr [] :: stk) t
  | .arrNext elems stk, .comma => some (.value (.arr elems :: stk))
  | .arrNext elems stk, .rbracket => some (complete (.arr elems) stk)
  | .objFirst stk, .rbrace => some (complete (.obj []) stk)
  | .objFirst stk, .str k => some (.objColon [] k stk)
  | .objKey props stk, .str k => some (.objColon props k stk)
  | .objColon props k stk, .colon => some (.value (.obj props k :: stk))
  | .objNext props stk, .comma => some (.objKey props stk)
  | .objNext props stk, .rbrace => some (complete (.obj props) stk)
  | _, _ => none

/-- The parser run from state `p`; `none` is a `SyntaxError`. -/
def parseRun : PState → List Token → Option JSValue
  | .finished v, [] => some v
  | _, [] => none
  | p, t :: ts =>
    match parseStep p t with
    | none => none
    | some p' => parseRun p' ts

/-- The built-in `JSON.parse` on a string: `some v` when it returns `v`, `none`
when it throws. -/
def JSONparse (text : List Char) : Option JSValue :=
  match lex text with
  | none => none
  | some ts => parseRun (.value []) ts

/-! ## The handlers -/

/-- The external collaborators of the handlers.  A result `none` stands for a thrown
error or a rejected promise. -/
structure Env where
  /-- The calls `model.generateContent(prompt)`, `result.response` and
  `response.text()`: the response text for a prompt. -/
  generateContent : List Char → Option (List Char)
  /-- The call `pdfParse(buffer)` followed by `.text`. -/
  pdfParse : List Nat → Option (List Char)
  /-- The call `mammoth.extractRawText` followed by `.value`. -/
  extractRawText : List Nat → Option (List Char)
  /-- The call `buffer.toString("utf-8")`. -/
  bufferToString : List Nat → List Char
  /-- The text that `JSON.stringify(resumeData)` contributes to a template literal. -/
  stringify : Option JSValue → List Char
  /-- Whether `res.json(v)` returns normally on a value `v` decoded from the provider's
  response.  It throws when the `JSON.stringify` it calls does, as on a value nested
  deeper than the engine's stack allows; the handlers call it inside their outer `try`.
  The object literals of the source and `undefined` are always serialised. -/
  resJson : JSValue → Bool

/-- What a handler did: the status and the argument of `res.json` (`none` is
`undefined`), and the prompts it sent to the generation provider, in order. -/
structure Outcome where
  status : Nat
  body : Option JSValue
  prompts : List (List Char)

/-- The object literal `{ error: msg }`. -/
def errorBody (msg : String) : JSValue := .obj [(js "error", .str (js msg))]

/-- The file that `upload.single("resumeFile")` stores in `req.file`. -/
structure UploadedFile where
  mimetype : String
  buffer : List Nat

/-- The prompt of both analysis handlers, up to the resume text. -/
def analyzePromptHead : String :=
  "You are an AI assistant that strictly returns JSON. Respond ONLY in JSON format like this: \x7b\"score\":75,\"keywords\":[\"word1\",\"word2\"],\"suggestions\":[\"tip1\",\"tip2\"]\x7d\n" ++
  "\n" ++
  "Analyze this resume and return:\n" ++
  "1. ATS score (0-100)\n" ++
  "2. Top 5 keywords\n" ++
  "3. 5 improvement suggestions\n" ++
  "\n" ++
  "Resume: "

/-- The prompt of both analysis handlers. -/
def analyzePrompt (resumeText : List Char) : List Char :=
  analyzePromptHead.toList ++ resumeText

/-- The value assigned to `jsonResult` in the `catch` of `/api/analyzeResume`. -/
def analysisFallback : JSValue :=
  .obj [
    (js "score", .num (.ofNat 50)),
    (js "keywords", .arr [.str (js "resume"), .str (js "experience"), .str (js "skills"),
      .str (js "education"), .str (js "work")]),
    (js "suggestions", .arr [
      .str (js "Unable to parse AI response properly"),
      .str (js "Please try again with a different resume format"),
      .str (js "Ensure your resume has clear sections"),
      .str (js "Include relevant keywords for your industry"),
      .str (js "Format your resume consistently")])]

/-- Handler of `POST /api/analyzeResume`; `resumeText` is `req.body.resumeText`, `none`
when it is absent.  The call `res.json(jsonResult)` is inside the outer `try`: when it
throws on the decoded value, the outer `catch` answers 500. -/
def analyzeResume (env : Env) (resumeText : Option (List Char)) : Outcome :=
  match resumeText with
  | none => ⟨400, some (errorBody "No resume text provided"), []⟩
  | some [] => ⟨400, some (errorBody "No resume text provided"), []⟩
  | some (c :: cs) =>
    let prompt := analyzePrompt (c :: cs)
    match env.generateContent prompt with
    | none => ⟨500, some (errorBody "AI analysis failed"), [prompt]⟩
    | some text =>
      match JSONparse (cleanText text) with
      | some jsonResult =>
        if env.resJson jsonResult then ⟨200, some jsonResult, [prompt]⟩
        else ⟨500, some (errorBody "AI analysis failed"), [prompt]⟩
      | none => ⟨200, some analysisFallback, [prompt]⟩

/-- The `catch` of `/api/analyzeResumeFile`. -/
def fileAnalysisFailed (prompts : List (List Char)) : Outcome :=
  ⟨500, some (errorBody "File analysis failed"), prompts⟩

/-- The part of `/api/analyzeResumeFile` that follows the extraction of `text`. -/
def analyzeExtractedText (env : Env) (text : List Char) : Outcome :=
  let prompt := analyzePrompt text
  match env.generateContent prompt with
  | none => fileAnalysisFailed [prompt]
  | some aiText =>
    match JSONparse (cleanText aiText) with
    | none => fileAnalysisFailed [prompt]
    | some jsonResult =>
      if env.resJson jsonResult then ⟨200, some jsonResult, [prompt]⟩
      else fileAnalysisFailed [prompt]

/-- Handler of `POST /api/analyzeResumeFile`; `file` is `req.file`. -/
def analyzeResumeFile (env : Env) (file : Option UploadedFile) : Outcome :=
  match file with
  | none => ⟨400, some (errorBody "No file uploaded"), []⟩
  | some f =>
    if f.mimetype = "application/pdf" then
      match env.pdfParse f.buffer with
      | none => fileAnalysisFailed []
      | some text => analyzeExtractedText env text
    else if f.mimetype =
        "application/vnd.openxmlformats-officedocument.wordprocessingml.document" then
      match env.extractRawText f.buffer with
      | none => fileAnalysisFailed []
      | some text => analyzeExtractedText env text
    else if f.mimetype = "text/plain" then
      analyzeExtractedText env (env.bufferToString f.buffer)
    else ⟨400, some (errorBody "Unsupported file type"), []⟩

/-- The prompt of `/api/languages`. -/
def languagesPrompt : String :=
  "List all the languages that are supported by gemini and can be translated without any problems with their ISO codes.\n" ++
  "Respond ONLY in JSON format like this:\n" ++
  "[\n" ++
  "  \x7b\"code\":\"en\",\"name\":\"English\"\x7d,\n" ++
  "  \x7b\"code\":\"hi\",\"name\":\"Hindi\"\x7d,\n" ++
  "  \x7b\"code\":\"ja\",\"name\":\"Japanese\"\x7d\n" ++
  "]"

/-- Handler of `GET /api/languages`.  The variable `languages` is declared without a
value and the `catch` of the parse assigns nothing to it, so `res.json` then receives
`undefined`. -/
def getLanguages (env : Env) : Outcome :=
  let prompt := languagesPrompt.toList
  match env.generateContent prompt with
  | none => ⟨500, some (errorBody "Failed to fetch languages"), [prompt]⟩
  | some text =>
    match JSONparse (cleanText text) with
    | some languages =>
      if env.resJson languages then ⟨200, some languages, [prompt]⟩
      else ⟨500, some (errorBody "Failed to fetch languages"), [prompt]⟩
    | none => ⟨200, none, [prompt]⟩

/-- The only element of the array `labels`: the form labels in English. -/
def englishLabels : List (JSString × JSValue) :=
  [(js "fullName", .str (js "Full Name")),
   (js "title", .str (js "Professional Title")),
   (js "email", .str (js "Email")),
   (js "phone", .str (js "Phone Number")),
   (js "linkedin", .str (js "LinkedIn URL")),
   (js "github", .str (js "GitHub / Portfolio URL")),
   (js "location", .str (js "Location (City, State)")),
   (js "summary", .str (js "Professional Summary / Objective")),
   (js "skills", .str (js "Key Skills (separate by commas)")),
   (js "experience", .str (js "Work Experience")),
   (js "education", .str (js "Education")),
   (js "projects", .str (js "Projects")),
   (js "internship", .str (js "Internship Experience")),
   (js "certifications", .str (js "Certifications / Trainings")),
   (js "achievements", .str (js "Achievements / Awards")),
   (js "languages", .str (js "Languages")),
   (js "volunteer", .str (js "Volunteer Work / Social Initiatives")),
   (js "hobbies", .str (js "Hobbies / Interests")),
   (js "next", .str (js "Next")),
   (js "back", .str (js "Back")),
   (js "save", .str (js "Save Resume")),
   (js "update", .str (js "Update Resume"))]

/-- The constant `labels` of `/api/labels/:lang`: an array holding one object. -/
def labels : List (List (JSString × JSValue)) := [englishLabels]

/-- The property key an ordinary object is converted to: `Object.prototype.toString`
gives the same text for every such object. -/
def objectToPropertyKey (_ : List (JSString × JSValue)) : JSString := js "[object Object]"

/-- The built-in `Object.fromEntries` on entries whose keys and values are ordinary
objects: each key is converted to a property key, each entry defines a property. -/
def objectFromEntries
    (entries : List (List (JSString × JSValue) × List (JSString × JSValue))) : JSValue :=
  .obj (entries.foldl (fun acc e => setProp acc (objectToPropertyKey e.1) (.obj e.2)) [])

/-- The expression `Object.fromEntries(labels.map((l) => [l, l]))`. -/
def labelsFallback : JSValue := objectFromEntries (labels.map (fun l => (l, l)))

/-- The prompt of `/api/labels/:lang`, up to the language code. -/
def labelsPromptHead : String :=
  "\n" ++
  "      Translate the following keys of this object\n" ++
  "      \x7b\n" ++
  "        fullName: \"Full Name\",\n" ++
  "        title: \"Professional Title\",\n" ++
  "        email: \"Email\",\n" ++
  "        phone: \"Phone Number\",\n" ++
  "        linkedin: \"LinkedIn URL\",\n" ++
  "        github: \"GitHub / Portfolio URL\",\n" ++
  "        location: \"Location (City, State)\",\n" ++
  "        summary: \"Professional Summary / Objective\",\n" ++
  "        skills: \"Key Skills (separate by commas)\",\n" ++
  "        experience: \"Work Experience\",\n" ++
  "        education: \"Education\",\n" ++
  "        projects: \"Projects\",\n" ++
  "        internship: \"Internship Experience\",\n" ++
  "        certifications: \"Certifications / Trainings\",\n" ++
  "        achievements: \"Achievements / Awards\",\n" ++
  "        languages: \"Languages\",\n" ++
  "        volunteer: \"Volunteer Work / Social Initiatives\",\n" ++
  "        hobbies: \"Hobbies / Interests\",\n" ++
  "        next: \"Next\",\n" ++
  "        back: \"Back\",\n" ++
  "        save: \"Save Resume\",\n" ++
  "        update: \"Update Resume\",\n" ++
  "      \x7d\n" ++
  "       into language code "

/-- The prompt of `/api/labels/:lang`, after the language code. -/
def labelsPromptTail : String :=
  " and keep the keys same only translate the values not keys.\n" ++
  "      Respond ONLY in valid JSON format where keys are translated only keep the keys same as giving in object.\n" ++
  "     \n" ++
  "    "

/-- Handler of `GET /api/labels/:lang`; `lang` is `req.params.lang`. -/
def getLabels (env : Env) (lang : List Char) : Outcome :=
  let prompt := labelsPromptHead.toList ++ lang ++ labelsPromptTail.toList
  match env.generateContent prompt with
  | none => ⟨500, some (errorBody "Failed to fetch translated labels"), [prompt]⟩
  | some text =>
    match JSONparse (cleanText text) with
    | some translatedLabels =>
      if env.resJson translatedLabels then ⟨200, some translatedLabels, [prompt]⟩
      else ⟨500, some (errorBody "Failed to fetch translated labels"), [prompt]⟩
    | none => ⟨200, some labelsFallback, [prompt]⟩

/-- The prompt of `/api/translateResume`. -/
def translatePrompt (env : Env) (resumeData : Option JSValue) (targetLang : List Char) :
    List Char :=
  ("\n" ++
   "      Translate the following resume data object values into language code ").toList ++
  targetLang ++
  (":\n" ++
   "      ").toList ++
  env.stringify resumeData ++
  (" also provide me a json of the translated keys like this \x7b\"fullName\":\"translated key\",\"title\":\"key\"\x7d this should be the in key named translatedLabels in resume data.\n" ++
   "      Respond ONLY in valid JSON format where keys are same only translate the values not keys.\n" ++
   "    ").toList

/-- Handler of `POST /api/translateResume`; `resumeData` is `req.body.resumeData`,
`none` when it is absent, and `targetLang` the text of `req.body.targetLang`.  In the
fallback `res.json` receives `resumeData`, which `JSON.stringify` has already
serialised for the prompt. -/
def translateResume (env : Env) (resumeData : Option JSValue) (targetLang : List Char) :
    Outcome :=
  let prompt := translatePrompt env resumeData targetLang
  match env.generateContent prompt with
  | none => ⟨500, some (errorBody "Failed to fetch translated resume"), [prompt]⟩
  | some text =>
    match JSONparse (cleanText text) with
    | some translatedResume =>
      if env.resJson translatedResume then ⟨200, some translatedResume, [prompt]⟩
      else ⟨500, some (errorBody "Failed to fetch translated resume"), [prompt]⟩
    | none => ⟨200, resumeData, [prompt]⟩

/-! ## The `AnalysisResult` schema of the specification -/

/-- Lookup of a property. -/
def getProp (ps : List (JSString × JSValue)) (k : JSString) : Option JSValue :=
  match ps with
  | [] => none
  | (k', v) :: rest => if k' = k then some v else getProp rest k

/-- Whether the value the literal denotes is an integer between 0 and 100. -/
def JSNumber.isScore (n : JSNumber) : Bool :=
  if n.mantissa = 0 then true
  else if n.neg then false
  else
    let up := if n.expNeg then 0 else n.exp
    let down := n.scale + (if n.expNeg then n.exp else 0)
    (n.mantissa * 10 ^ up) % 10 ^ down = 0 && (n.mantissa * 10 ^ up) / 10 ^ down ≤ 100

/-- Whether a value is a string. -/
def JSValue.isStr : JSValue → Bool
  | .str _ => true
  | _ => false

/-- Whether a value is an array of at most five strings. -/
def JSValue.isShortStringArray : JSValue → Bool
  | .arr xs => xs.length ≤ 5 && xs.all JSValue.isStr
  | _ => false

/-- Whether a value is a score: a number that is an integer between 0 and 100. -/
def JSValue.isScoreValue : JSValue → Bool
  | .num n => n.isScore
  | _ => false

/-- Schema of an `AnalysisResult`, as section 3 of the specification words it: an
object with an integer `score` between 0 and 100, an array `keywords` of at most five
strings and an array `suggestions` of at most five strings. -/
def isAnalysisResult : JSValue → Bool
  | .obj ps =>
    (match getProp ps (js "score") with
     | some v => v.isScoreValue
     | none => false) &&
    (match getProp ps (js "keywords") with
     | some v => v.isShortStringArray
     | none => false) &&
    (match getProp ps (js "suggestions") with
     | some v => v.isShortStringArray
     | none => false)
  | _ => false

/-! ## Inputs used to state the properties -/

/-- An environment whose provider answers every prompt with `text`; the document
extractors fail, the other collaborators return the empty text, and `res.json`
serialises every value. -/
def answering (text : List Char) : Env :=
  ⟨fun _ => some text, fun _ => none, fun _ => none, fun _ => [], fun _ => [],
    fun _ => true⟩

/-- A response that wraps `inner` in a fenced block labelled as JSON. -/
def fenced (inner : List Char) : List Char :=
  "```json\n".toList ++ inner ++ "\n```".toList

/-- The mimetypes `/api/analyzeResumeFile` extracts text from. -/
def supportedMimetypes : List String :=
  ["application/pdf",
   "application/vnd.openxmlformats-officedocument.wordprocessingml.document",
   "text/plain"]

/-! ## Shapes: tokens and states up to the content of strings -/

/-- A token with the content of a string erased. -/
def Token.shape : Token → Token
  | .str _ => .str []
  | t => t

/-- A lexer state with the content of the current string erased. -/
def LexState.shape : LexState → LexState
  | .inStr _ => .inStr []
  | .esc _ => .esc []
  | .uni _ k _ => .uni [] k 0
  | q => q

/-- A frame with its content erased. -/
def Frame.shape : Frame → Frame
  | .arr _ => .arr []
  | .obj _ _ => .obj [] []

/-- A parser state with all values erased. -/
def PState.shape : PState → PState
  | .value stk => .value (stk.map Frame.shape)
  | .arrFirst stk => .arrFirst (stk.map Frame.shape)
  | .arrNext _ stk => .arrNext [] (stk.map Frame.shape)
  | .objFirst stk => .objFirst (stk.map Frame.shape)
  | .objKey _ stk => .objKey [] (stk.map Frame.shape)
  | .objColon _ _ stk => .objColon [] [] (stk.map Frame.shape)
  | .objNext _ stk => .objNext [] (stk.map Frame.shape)
  | .finished _ => .finished .null

/-- The shape of a lexer step's result. -/
def stepShape (r : Option (LexState × List Token)) : Option (LexState × List Token) :=
  r.map (fun p => (p.1.shape, p.2.map Token.shape))

/-- The back-tick. -/
def bt : Char := Char.ofNat 96

/-- The characters a match of the regular expression is made of. -/
def fenceChars : List Char := "```json\n".toList

/-! ## Facts about the cleaner -/

theorem fence_infix_of_fenceJson_isPrefixOf (s : List Char)
    (h : fenceJson.isPrefixOf s = true) : fence <:+: s := by
  rw [List.isPrefixOf_iff_prefix] at h
  obtain ⟨t, rfl⟩ := h
  exact ⟨[], "json".toList ++ t, by simp [fence, fenceJson]⟩

theorem fence_infix_of_isPrefixOf (s : List Char)
    (h : fence.isPrefixOf s = true) : fence <:+: s := by
  rw [List.isPrefixOf_iff_prefix] at h
  exact h.isInfix

theorem fence_infix_of_isPrefixOf_drop (s : List Char)
    (h : fence.isPrefixOf (s.drop 1) = true) : fence <:+: s := by
  rw [List.isPrefixOf_iff_prefix] at h
  exact h.isInfix.trans (List.drop_suffix 1 s).isInfix

/-- Without three consecutive back-ticks the regular expression matches nowhere. -/
theorem matchAt_eq_none_of_no_fence (s : List Char) (h : ¬ fence <:+: s) :
    matchAt s = none := by
  have h1 : fenceJson.isPrefixOf s = false := by
    cases hb : fenceJson.isPrefixOf s
    · rfl
    · exact absurd (fence_infix_of_fenceJson_isPrefixOf s hb) h
  have h2 : fence.isPrefixOf s = false := by
    cases hb : fence.isPrefixOf s
    · rfl
    · exact absurd (fence_infix_of_isPrefixOf s hb) h
  have h3 : fence.isPrefixOf (s.drop 1) = false := by
    cases hb : fence.isPrefixOf (s.drop 1)
    · rfl
    · exact absurd (fence_infix_of_isPrefixOf_drop s hb) h
  simp only [matchAt, matchOpen, matchClose, h1, h2, h3, Bool.and_false]
  rfl

/-- Without three consecutive back-ticks the replacement changes nothing. -/
theorem replaceGo_zero_of_no_fence (s : List Char) (h : ¬ fence <:+: s) :
    replaceGo 0 s = s := by
  induction s with
  | nil => rfl
  | cons c cs ih =>
    have hcs : ¬ fence <:+: cs := fun hc => h (hc.trans (List.suffix_cons c cs).isInfix)
    simp only [replaceGo, matchAt_eq_none_of_no_fence (c :: cs) h, ih hcs]

/-- Without three consecutive back-ticks the cleaner only trims. -/
theorem cleanText_eq_trim_of_no_fence (text : List Char) (h : ¬ fence <:+: text) :
    cleanText text = trim text := by
  simp only [cleanText, replaceFences, replaceGo_zero_of_no_fence text h]

/-! ## Facts about `JSON.parse` and white space -/

theorem isJSWhiteSpace_range (c : Char) (h : isJSWhiteSpace c = true) :
    c.toNat ≤ 32 ∨ 160 ≤ c.toNat := by
  simp [isJSWhiteSpace, jsWhiteSpaceCodes] at h
  omega

theorem litText_range (tok : Token) (r : Char) (h : r ∈ litText tok) :
    97 ≤ r.toNat ∧ r.toNat ≤ 117 := by
  have key : (litText tok).all (fun r => decide (97 ≤ r.toNat) && decide (r.toNat ≤ 117)) = true := by
    cases tok <;> rfl
  have := List.all_eq_true.mp key r h
  simpa using this

theorem lexStart_plain (c : Char) (h : c.toNat ≤ 32 ∨ 160 ≤ c.toNat) :
    lexStart c = none ∨ lexStart c = some (.start, []) := by
  unfold lexStart
  by_cases hw : isJSONWhiteSpace c = true
  · right; simp [hw]
  · left
    have d : digitVal c = none := by
      unfold digitVal; rw [if_neg (by omega)]
    rw [if_neg hw, if_neg (by omega), if_neg (by omega), if_neg (by omega), if_neg (by omega),
      if_neg (by omega), if_neg (by omega), if_neg (by omega), if_neg (by omega),
      if_neg (by omega), if_neg (by omega), if_neg (by omega), if_neg (by omega), d]


theorem lexFinish_plain (n : JSNumber) (c : Char) (h : c.toNat ≤ 32 ∨ 160 ≤ c.toNat) :
    lexFinish n c = none ∨ lexFinish n c = some (.start, [.num n]) := by
  unfold lexFinish
  rcases lexStart_plain c h with h0 | h0 <;> rw [h0]
  · left; rfl
  · right; rfl

theorem lexStep_plain (q : LexState) (c : Char) (h : c.toNat ≤ 32 ∨ 160 ≤ c.toNat) :
    lexStep q c = none ∨ (∃ l, lexStep q c = some (.start, l) ∧ lexEnd q = some l) ∨
      (32 ≤ c.toNat ∧ ∃ acc, lexStep q c = some (.inStr acc, [])) := by
  have d : digitVal c = none := by
    unfold digitVal; rw [if_neg (by omega)]
  have hx : hexVal c = none := by
    unfold hexVal; rw [if_neg (by omega), if_neg (by omega), if_neg (by omega)]
  have e : escapeVal c = none := by
    unfold escapeVal
    rw [if_neg (by omega), if_neg (by omega), if_neg (by omega), if_neg (by omega),
      if_neg (by omega), if_neg (by omega), if_neg (by omega), if_neg (by omega)]
  cases q with
  | start =>
    rcases lexStart_plain c h with h0 | h0
    · left; simpa [lexStep] using h0
    · right; left; exact ⟨[], by simpa [lexStep] using h0, rfl⟩
  | inStr acc =>
    simp only [lexStep]
    rw [if_neg (by omega), if_neg (by omega)]
    by_cases h32 : c.toNat < 32
    · left; rw [if_pos h32]
    · right; right; exact ⟨by omega, _, by rw [if_neg h32]⟩
  | esc acc =>
    left; simp only [lexStep, e]; rw [if_neg (by omega)]
  | uni acc k code =>
    left; simp only [lexStep, hx]
  | lit tok k =>
    left
    simp only [lexStep]
    cases hd : (litText tok).drop k with
    | nil => rfl
    | cons r rs =>
      have hr : r ∈ litText tok := List.mem_of_mem_drop (hd ▸ List.mem_cons_self r rs)
      have hrange := litText_range tok r hr
      have hne : ¬ c = r := by
        intro hc; subst hc; omega
      simp only [if_neg hne]
  | minus =>
    left; simp only [lexStep, d]; rw [if_neg (by omega)]
  | zero neg =>
    simp only [lexStep]
    rw [if_neg (by omega), if_neg (by omega)]
    rcases lexFinish_plain ⟨neg, 0, 0, false, 0⟩ c h with h0 | h0
    · left; exact h0
    · right; left; exact ⟨_, h0, rfl⟩
  | int neg m =>
    simp only [lexStep, d]
    rw [if_neg (by omega), if_neg (by omega)]
    rcases lexFinish_plain ⟨neg, m, 0, false, 0⟩ c h with h0 | h0
    · left; exact h0
    · right; left; exact ⟨_, h0, rfl⟩
  | dot neg m =>
    left; simp only [lexStep, d]
  | frac neg m scale =>
    simp only [lexStep, d]
    rw [if_neg (by omega)]
    rcases lexFinish_plain ⟨neg, m, scale, false, 0⟩ c h with h0 | h0
    · left; exact h0
    · right; left; exact ⟨_, h0, rfl⟩
  | expMark neg m scale =>
    left; simp only [lexStep, d]; rw [if_neg (by omega), if_neg (by omega)]
  | expSign neg m scale eneg =>
    left; simp only [lexStep, d]
  | expDigits neg m scale eneg e =>
    simp only [lexStep, d]
    rcases lexFinish_plain ⟨neg, m, scale, eneg, e⟩ c h with h0 | h0
    · left; exact h0
    · right; left; exact ⟨_, h0, rfl⟩

/-- White space at the end of the input is not part of any token: when the lexer
accepts white space from a state, that state accepts the end of input with the same
tokens. -/
theorem lexRun_whiteSpace (r : List Char) (hr : ∀ c ∈ r, isJSWhiteSpace c = true) :
    ∀ (q : LexState) (ts : List Token), lexRun q r = some ts → lexEnd q = some ts := by
  induction r with
  | nil => intro q ts h; simpa [lexRun] using h
  | cons c r ih =>
    intro q ts h
    have hc := isJSWhiteSpace_range c (hr c (List.mem_cons_self c r))
    have hr' : ∀ c ∈ r, isJSWhiteSpace c = true := fun x hx => hr x (List.mem_cons_of_mem c hx)
    rcases lexStep_plain q c hc with h0 | ⟨l, h0, hl⟩ | ⟨_, acc, h0⟩
    · simp [lexRun, h0] at h
    · simp only [lexRun, h0] at h
      cases hrun : lexRun .start r with
      | none => simp [hrun] at h
      | some ts' =>
        simp only [hrun, Option.some.injEq] at h
        have := ih hr' .start ts' hrun
        simp only [lexEnd, Option.some.injEq] at this
        subst this
        rw [hl, ← h, List.append_nil]
    · simp only [lexRun, h0] at h
      cases hrun : lexRun (.inStr acc) r with
      | none => simp [hrun] at h
      | some ts' =>
        have := ih hr' (.inStr acc) ts' hrun
        simp [lexEnd] at this

theorem lexRun_append_whiteSpace (r : List Char) (hr : ∀ c ∈ r, isJSWhiteSpace c = true)
    (m : List Char) :
    ∀ (q : LexState) (ts : List Token), lexRun q (m ++ r) = some ts → lexRun q m = some ts := by
  induction m with
  | nil => intro q ts h; simpa [lexRun] using lexRun_whiteSpace r hr q ts h
  | cons c m ih =>
    intro q ts h0
    have h : lexRun q (c :: (m ++ r)) = some ts := h0
    simp only [lexRun] at h ⊢
    cases hs : lexStep q c with
    | none => simp [hs] at h
    | some p =>
      obtain ⟨q', out⟩ := p
      simp only [hs] at h ⊢
      cases hrun : lexRun q' (m ++ r) with
      | none => simp [hrun] at h
      | some ts' =>
        simp only [hrun] at h
        rw [ih q' ts' hrun]
        exact h

theorem lex_trimStart (s : List Char) (ts : List Token) (h : lex s = some ts) :
    lex (trimStart s) = some ts := by
  induction s with
  | nil => exact h
  | cons c s ih =>
    unfold trimStart
    by_cases hw : isJSWhiteSpace c = true
    · rw [List.dropWhile_cons_of_pos hw]
      apply ih
      unfold lex at h ⊢
      rcases lexStart_plain c (isJSWhiteSpace_range c hw) with h0 | h0
      · simp [lexRun, lexStep, h0] at h
      · simp only [lexRun, lexStep, h0, List.nil_append] at h
        cases hrun : lexRun .start s with
        | none => simp [hrun] at h
        | some ts' => simpa [hrun] using h
    · rw [List.dropWhile_cons_of_neg hw]
      exact h

theorem trimEnd_append (s : List Char) :
    ∃ r, (∀ c ∈ r, isJSWhiteSpace c = true) ∧ s = trimEnd s ++ r := by
  refine ⟨(s.reverse.takeWhile isJSWhiteSpace).reverse, ?_, ?_⟩
  · intro c hc
    exact List.mem_takeWhile_imp (List.mem_reverse.mp hc)
  · unfold trimEnd
    rw [← List.reverse_append, List.takeWhile_append_dropWhile, List.reverse_reverse]

theorem lex_trimEnd (s : List Char) (ts : List Token) (h : lex s = some ts) :
    lex (trimEnd s) = some ts := by
  obtain ⟨r, hr, hs⟩ := trimEnd_append s
  rw [hs] at h
  exact lexRun_append_whiteSpace r hr (trimEnd s) .start ts h

/-- A text that `JSON.parse` accepts is accepted, with the same value, after `trim`. -/
theorem JSONparse_trim (s : List Char) (v : JSValue) (h : JSONparse s = some v) :
    JSONparse (trim s) = some v := by
  unfold JSONparse at h ⊢
  cases hl : lex s with
  | none => simp [hl] at h
  | some ts =>
    rw [hl] at h
    have := lex_trimEnd (trimStart s) ts (lex_trimStart s ts hl)
    unfold trim
    rw [this]
    exact h

/-! ## The cleaner on a fenced block -/

theorem matchAt_eq_none (t : List Char) (h2 : fence.isPrefixOf t = false)
    (h3 : fence.isPrefixOf (t.drop 1) = false) : matchAt t = none := by
  have h1 : fenceJson.isPrefixOf t = false := by
    cases hb : fenceJson.isPrefixOf t
    · rfl
    · rw [List.isPrefixOf_iff_prefix] at hb
      have hp : fence <+: fenceJson := ⟨"json".toList, rfl⟩
      have := List.isPrefixOf_iff_prefix.mpr (hp.trans hb)
      rw [h2] at this
      exact absurd this (by simp)
  simp only [matchAt, matchOpen, matchClose, h1, h2, h3, Bool.and_false]
  rfl

theorem fence_not_isPrefixOf_append_close (l : List Char) (h : ¬ fence <:+: l) :
    fence.isPrefixOf (l ++ "\n```".toList) = false := by
  match l, h with
  | [], _ => rfl
  | [a], _ => simp [fence, List.isPrefixOf]
  | [a, b], _ => simp [fence, List.isPrefixOf]
  | a :: b :: c :: rest, h =>
    cases hb : fence.isPrefixOf (a :: b :: c :: rest ++ "\n```".toList)
    · rfl
    · exfalso
      apply h
      simp [fence, List.isPrefixOf] at hb
      obtain ⟨ha, hb', hc⟩ := hb
      subst ha hb' hc
      exact ⟨[], rest, rfl⟩

theorem replaceGo_append_close (inner : List Char) (h : ¬ fence <:+: inner) :
    replaceGo 0 (inner ++ "\n```".toList) = inner := by
  induction inner with
  | nil => rfl
  | cons c cs ih =>
    have hcs : ¬ fence <:+: cs := fun hc => h (hc.trans (List.suffix_cons c cs).isInfix)
    have hm : matchAt (c :: (cs ++ "\n```".toList)) = none :=
      matchAt_eq_none _ (fence_not_isPrefixOf_append_close (c :: cs) h)
        (fence_not_isPrefixOf_append_close cs hcs)
    show replaceGo 0 (c :: (cs ++ "\n```".toList)) = c :: cs
    simp only [replaceGo, hm, ih hcs]

theorem replaceGo_open (x : List Char) :
    replaceGo 0 ("```json\n".toList ++ x) = replaceGo 0 x := rfl

/-- A fenced block whose content has no three consecutive back-ticks is cleaned to its
trimmed content. -/
theorem cleanText_fenced_of_no_fence (inner : List Char) (h : ¬ fence <:+: inner) :
    cleanText (fenced inner) = trim inner := by
  unfold cleanText replaceFences fenced
  rw [List.append_assoc, replaceGo_open, replaceGo_append_close inner h]


/-! ## A valid text stays valid when fences are removed -/

theorem Frame.shape_shape (f : Frame) : f.shape.shape = f.shape := by
  cases f <;> rfl

theorem map_shape_shape (stk : List Frame) :
    (stk.map Frame.shape).map Frame.shape = stk.map Frame.shape := by
  induction stk with
  | nil => rfl
  | cons f stk ih => simp only [List.map_cons, Frame.shape_shape, ih]

theorem complete_shape (v w : JSValue) (stk : List Frame) :
    (complete v stk).shape = (complete w (stk.map Frame.shape)).shape := by
  cases stk with
  | nil => rfl
  | cons f stk =>
    cases f <;> simp only [complete, PState.shape, Frame.shape, List.map_cons, map_shape_shape]

theorem startValue_shape (stk : List Frame) (t : Token) :
    (startValue stk t).map PState.shape
      = (startValue (stk.map Frame.shape) t.shape).map PState.shape := by
  cases t with
  | lbracket =>
    simp only [startValue, Token.shape, Option.map_some', PState.shape, map_shape_shape]
  | lbrace =>
    simp only [startValue, Token.shape, Option.map_some', PState.shape, map_shape_shape]
  | str s => exact congrArg some (complete_shape _ _ _)
  | num n => exact congrArg some (complete_shape _ _ _)
  | litTrue => exact congrArg some (complete_shape _ _ _)
  | litFalse => exact congrArg some (complete_shape _ _ _)
  | litNull => exact congrArg some (complete_shape _ _ _)
  | rbrace => rfl
  | rbracket => rfl
  | colon => rfl
  | comma => rfl

theorem parseStep_shape (p : PState) (t : Token) :
    (parseStep p t).map PState.shape = (parseStep p.shape t.shape).map PState.shape := by
  cases p with
  | value stk => exact startValue_shape stk t
  | arrFirst stk =>
    cases t with
    | rbracket => exact congrArg some (complete_shape _ _ _)
    | lbracket => exact startValue_shape (Frame.arr [] :: stk) Token.lbracket
    | lbrace => exact startValue_shape (Frame.arr [] :: stk) Token.lbrace
    | str s => exact startValue_shape (Frame.arr [] :: stk) (Token.str s)
    | num n => exact startValue_shape (Frame.arr [] :: stk) (Token.num n)
    | litTrue => exact startValue_shape (Frame.arr [] :: stk) Token.litTrue
    | litFalse => exact startValue_shape (Frame.arr [] :: stk) Token.litFalse
    | litNull => exact startValue_shape (Frame.arr [] :: stk) Token.litNull
    | rbrace => rfl
    | colon => rfl
    | comma => rfl
  | arrNext elems stk =>
    cases t with
    | comma =>
      simp only [parseStep, Token.shape, Option.map_some', PState.shape, List.map_cons,
        Frame.shape, map_shape_shape]
    | rbracket => exact congrArg some (complete_shape _ _ _)
    | _ => rfl
  | objFirst stk =>
    cases t with
    | rbrace => exact congrArg some (complete_shape _ _ _)
    | str k =>
      simp only [parseStep, Token.shape, Option.map_some', PState.shape, map_shape_shape]
    | _ => rfl
  | objKey props stk =>
    cases t with
    | str k =>
      simp only [parseStep, Token.shape, Option.map_some', PState.shape, map_shape_shape]
    | _ => rfl
  | objColon props k stk =>
    cases t with
    | colon =>
      simp only [parseStep, Token.shape, Option.map_some', PState.shape, List.map_cons,
        Frame.shape, map_shape_shape]
    | _ => rfl
  | objNext props stk =>
    cases t with
    | comma =>
      simp only [parseStep, Token.shape, Option.map_some', PState.shape, map_shape_shape]
    | rbrace => exact congrArg some (complete_shape _ _ _)
    | _ => rfl
  | finished v => cases t <;> rfl

theorem parseRun_nil_shape (p p' : PState) (h : p.shape = p'.shape) :
    (parseRun p []).isSome = (parseRun p' []).isSome := by
  cases p <;> cases p' <;> simp [PState.shape] at h <;> rfl

/-- Whether the parser accepts depends only on the shapes of the state and tokens. -/
theorem parseRun_isSome_shape (ts : List Token) :
    ∀ (ts' : List Token) (p p' : PState), p.shape = p'.shape →
      ts.map Token.shape = ts'.map Token.shape →
      (parseRun p ts).isSome = (parseRun p' ts').isSome := by
  induction ts with
  | nil =>
    intro ts' p p' hp hts
    cases ts' with
    | nil => exact parseRun_nil_shape p p' hp
    | cons t' ts' => simp at hts
  | cons t ts ih =>
    intro ts' p p' hp hts
    cases ts' with
    | nil => simp at hts
    | cons t' ts' =>
      simp only [List.map_cons, List.cons.injEq] at hts
      have hstep : (parseStep p t).map PState.shape = (parseStep p' t').map PState.shape := by
        rw [parseStep_shape p t, parseStep_shape p' t', hp, hts.1]
      cases h1 : parseStep p t with
      | none =>
        cases h2 : parseStep p' t' with
        | none => simp only [parseRun, h1, h2]
        | some p2 => rw [h1, h2] at hstep; simp at hstep
      | some p1 =>
        cases h2 : parseStep p' t' with
        | none => rw [h1, h2] at hstep; simp at hstep
        | some p2 =>
          rw [h1, h2] at hstep
          simp only [Option.map_some', Option.some.injEq] at hstep
          simp only [parseRun, h1, h2]
          exact ih ts' p1 p2 hstep hts.2

theorem lexEnd_shape (q q' : LexState) (h : q.shape = q'.shape) : lexEnd q = lexEnd q' := by
  cases q <;> cases q' <;> simp_all [LexState.shape, lexEnd]

theorem lexStep_shape (q q' : LexState) (c : Char) (h : q.shape = q'.shape) :
    stepShape (lexStep q c) = stepShape (lexStep q' c) := by
  cases q <;> cases q' <;> simp only [LexState.shape, reduceCtorEq] at h
  case start.start => rfl
  case inStr.inStr acc acc' =>
    simp only [lexStep]
    split_ifs <;> rfl
  case esc.esc acc acc' =>
    simp only [lexStep]
    split_ifs
    · rfl
    · cases escapeVal c <;> rfl
  case uni.uni acc k code acc' k' code' =>
    simp only [LexState.uni.injEq, true_and, and_true] at h
    subst h
    simp only [lexStep]
    cases hexVal c with
    | none => rfl
    | some d =>
      simp only []
      split_ifs <;> rfl
  all_goals (cases h; rfl)

theorem lexStart_bt : lexStart bt = none := rfl

/-- Only inside a string does the lexer accept a back-tick. -/
theorem lexStep_bt (q q1 : LexState) (out : List Token) (h : lexStep q bt = some (q1, out)) :
    ∃ acc acc1, q = .inStr acc ∧ q1 = .inStr acc1 ∧ out = [] := by
  cases q with
  | inStr acc =>
    have : lexStep (.inStr acc) bt = some (.inStr (acc ++ utf16 bt), []) := rfl
    rw [this] at h
    simp only [Option.some.injEq, Prod.mk.injEq] at h
    exact ⟨acc, _, rfl, h.1.symm, h.2.symm⟩
  | lit tok k =>
    exfalso
    simp only [lexStep] at h
    cases hd : (litText tok).drop k with
    | nil => simp [hd] at h
    | cons r rs =>
      have hr : r ∈ litText tok := List.mem_of_mem_drop (hd ▸ List.mem_cons_self r rs)
      have hrange := litText_range tok r hr
      have hne : ¬ bt = r := by
        intro hc; subst hc; revert hrange; decide
      simp [hd, hne] at h
  | _ =>
    have h' : (none : Option (LexState × List Token)) = some (q1, out) := h
    cases h'

/-- Inside a string, a character of a fence either is refused or leaves the lexer
inside the string. -/
theorem lexStep_inStr_fenceChar (acc : JSString) (c : Char) (hc : c ∈ fenceChars)
    (q1 : LexState) (out : List Token) (h : lexStep (.inStr acc) c = some (q1, out)) :
    ∃ acc1, q1 = .inStr acc1 ∧ out = [] := by
  simp only [fenceChars, String.toList, List.mem_cons, List.mem_singleton,
    List.not_mem_nil, or_false] at hc
  rcases hc with rfl | rfl | rfl | rfl | rfl | rfl | rfl | rfl
  all_goals first
    | (have h' : some (LexState.inStr (acc ++ _), ([] : List Token)) = some (q1, out) := h
       simp only [Option.some.injEq, Prod.mk.injEq] at h'
       exact ⟨_, h'.1.symm, h'.2.symm⟩)
    | (have h' : (none : Option (LexState × List Token)) = some (q1, out) := h
       cases h')

/-- No state of the lexer accepts a line feed followed by a back-tick. -/
theorem lexRun_lf_bt (q : LexState) (rest : List Char) : lexRun q (lf :: bt :: rest) = none := by
  have hstart : lexRun .start (bt :: rest) = none := rfl
  rcases lexStep_plain q lf (Or.inl (by decide)) with h0 | ⟨l, h0, _⟩ | ⟨h32, _⟩
  · simp only [lexRun, h0]
  · simp only [lexRun] at hstart ⊢
    simp only [h0, hstart]
  · exact absurd h32 (by decide)

/-- What a match of the regular expression looks like: it starts with a back-tick, or
with a line feed that a back-tick follows, and the rest of it is made of fence
characters. -/
theorem matchAt_some (c : Char) (rest : List Char) (m : Nat)
    (h : matchAt (c :: rest) = some m) :
    ∃ n, m = n + 1 ∧ (∀ x ∈ rest.take n, x ∈ fenceChars) ∧
      (c = bt ∨ (c = lf ∧ ∃ r, rest = bt :: r)) := by
  unfold matchAt matchOpen matchClose at h
  by_cases h1 : fenceJson.isPrefixOf (c :: rest) = true
  · obtain ⟨r, hr⟩ := List.isPrefixOf_iff_prefix.mp h1
    simp only [fenceJson, String.toList, List.cons_append, List.nil_append,
      List.cons.injEq] at hr
    obtain ⟨hc, hrest⟩ := hr
    subst hc hrest
    by_cases h2 : r.head? = some lf
    · cases r with
      | nil => simp at h2
      | cons a r' =>
        simp only [List.head?_cons, Option.some.injEq] at h2
        subst h2
        have hm : matchAt (bt :: bt :: bt :: 'j' :: 's' :: 'o' :: 'n' :: lf :: r') = some 8 := rfl
        unfold matchAt matchOpen matchClose at hm
        rw [show ('`' : Char) = bt from rfl] at h
        rw [hm] at h
        refine ⟨7, (Option.some.inj h).symm, ?_, Or.inl rfl⟩
        intro x hx
        simp only [List.take_succ_cons, List.take_zero, List.mem_cons, List.not_mem_nil,
          or_false] at hx
        rcases hx with rfl | rfl | rfl | rfl | rfl | rfl | rfl <;> decide
    · simp only [h1, if_true, List.drop_succ_cons, List.drop_zero, h2, if_false] at h
      refine ⟨6, (Option.some.inj h).symm, ?_, Or.inl rfl⟩
      intro x hx
      simp only [List.take_succ_cons, List.take_zero, List.mem_cons, List.not_mem_nil,
        or_false] at hx
      rcases hx with rfl | rfl | rfl | rfl | rfl | rfl <;> decide
  · simp only [h1] at h
    by_cases h2 : ((c :: rest).head? = some lf && fence.isPrefixOf ((c :: rest).drop 1)) = true
    · simp only [h2, if_true] at h
      simp only [List.head?_cons, Option.some.injEq, List.drop_succ_cons, List.drop_zero,
        Bool.and_eq_true, decide_eq_true_eq] at h2
      obtain ⟨hc, hp⟩ := h2
      obtain ⟨r, hr⟩ := List.isPrefixOf_iff_prefix.mp hp
      subst hc
      subst hr
      refine ⟨3, (Option.some.inj h).symm, ?_, Or.inr ⟨rfl, _, rfl⟩⟩
      intro x hx
      simp only [fence, String.toList, List.cons_append, List.nil_append,
        List.take_succ_cons, List.take_zero, List.mem_cons, List.not_mem_nil,
        or_false] at hx
      rcases hx with rfl | rfl | rfl <;> decide
    · simp only [h2] at h
      by_cases h3 : fence.isPrefixOf (c :: rest) = true
      · simp only [h3, if_true] at h
        obtain ⟨r, hr⟩ := List.isPrefixOf_iff_prefix.mp h3
        simp only [fence, String.toList, List.cons_append, List.nil_append,
          List.cons.injEq] at hr
        obtain ⟨hc, hrest⟩ := hr
        subst hc hrest
        refine ⟨2, ?_, ?_, Or.inl rfl⟩
        · simpa using h.symm
        · intro x hx
          simp only [List.take_succ_cons, List.take_zero, List.mem_cons, List.not_mem_nil,
            or_false] at hx
          rcases hx with rfl | rfl <;> decide
      · simp [h3] at h

theorem lexStep_some_of_shape (q q' : LexState) (c : Char) (h : q.shape = q'.shape)
    (q1 : LexState) (out : List Token) (hs : lexStep q c = some (q1, out)) :
    ∃ q1' out', lexStep q' c = some (q1', out') ∧ q1.shape = q1'.shape ∧
      out'.map Token.shape = out.map Token.shape := by
  have hsh := lexStep_shape q q' c h
  rw [hs] at hsh
  cases hs' : lexStep q' c with
  | none => rw [hs'] at hsh; simp [stepShape] at hsh
  | some p =>
    rw [hs'] at hsh
    simp only [stepShape, Option.map_some', Option.some.injEq, Prod.mk.injEq] at hsh
    exact ⟨p.1, p.2, rfl, hsh.1, hsh.2.symm⟩

theorem lexRun_cons_some (q : LexState) (c : Char) (cs : List Char) (ts : List Token)
    (h : lexRun q (c :: cs) = some ts) :
    ∃ q1 out ts1, lexStep q c = some (q1, out) ∧ lexRun q1 cs = some ts1 ∧
      ts = out ++ ts1 := by
  simp only [lexRun] at h
  cases hs : lexStep q c with
  | none => simp [hs] at h
  | some p =>
    obtain ⟨q1, out⟩ := p
    simp only [hs] at h
    cases hr : lexRun q1 cs with
    | none => simp [hr] at h
    | some ts1 =>
      simp only [hr, Option.some.injEq] at h
      exact ⟨q1, out, ts1, rfl, hr, h.symm⟩

/-- The lexer on a text it accepts, against the lexer on the same text followed by the
closing marker and with the fences removed: the second accepts as well, with tokens of
the same shapes.  The count `k` is the part of the current match still to be
deleted; while it is positive the first lexer is inside a string. -/
theorem lexRun_replaceGo (s : List Char) :
    ∀ (k : Nat) (q q' : LexState) (ts : List Token), q.shape = q'.shape →
      (0 < k → ∃ acc, q = .inStr acc) →
      (∀ x ∈ (s ++ "\n```".toList).take k, x ∈ fenceChars) →
      lexRun q s = some ts →
      ∃ ts', lexRun q' (replaceGo k (s ++ "\n```".toList)) = some ts' ∧
        ts'.map Token.shape = ts.map Token.shape := by
  induction s with
  | nil =>
    intro k q q' ts hq hk _ hrun
    cases k with
    | zero =>
      have hre : replaceGo 0 ([] ++ "\n```".toList) = [] := rfl
      rw [hre]
      simp only [lexRun] at hrun ⊢
      exact ⟨ts, by rw [← lexEnd_shape q q' hq]; exact hrun, rfl⟩
    | succ k =>
      obtain ⟨acc, rfl⟩ := hk (Nat.succ_pos k)
      simp [lexRun, lexEnd] at hrun
  | cons c cs ih =>
    intro k q q' ts hq hk htake hrun
    obtain ⟨q1, out, ts1, hstep, hrun1, hts⟩ := lexRun_cons_some q c cs ts hrun
    cases k with
    | succ k =>
      obtain ⟨acc, rfl⟩ := hk (Nat.succ_pos k)
      have hc : c ∈ fenceChars := htake c (by simp)
      obtain ⟨acc1, rfl, rfl⟩ := lexStep_inStr_fenceChar acc c hc q1 out hstep
      have hre : replaceGo (k + 1) (c :: cs ++ "\n```".toList)
          = replaceGo k (cs ++ "\n```".toList) := rfl
      rw [hre, hts, List.nil_append]
      refine ih k (.inStr acc1) q' ts1 ?_ (fun _ => ⟨acc1, rfl⟩) ?_ hrun1
      · rw [← hq]; rfl
      · intro x hx
        exact htake x (List.mem_cons_of_mem c hx)
    | zero =>
      cases hm : matchAt (c :: (cs ++ "\n```".toList)) with
      | none =>
        have hre : replaceGo 0 (c :: cs ++ "\n```".toList)
            = c :: replaceGo 0 (cs ++ "\n```".toList) := by
          show replaceGo 0 (c :: (cs ++ "\n```".toList)) = _
          simp only [replaceGo, hm]
        obtain ⟨q1', out', hstep', hq1, hout⟩ :=
          lexStep_some_of_shape q q' c hq q1 out hstep
        obtain ⟨ts1', hrun1', hts1⟩ :=
          ih 0 q1 q1' ts1 hq1 (fun h => absurd h (Nat.lt_irrefl 0)) (by simp) hrun1
        refine ⟨out' ++ ts1', ?_, ?_⟩
        · rw [hre]
          simp only [lexRun, hstep', hrun1']
        · rw [hts, List.map_append, List.map_append, hout, hts1]
      | some m =>
        obtain ⟨n, rfl, hfence, hhead⟩ := matchAt_some c _ m hm
        have hre : replaceGo 0 (c :: cs ++ "\n```".toList)
            = replaceGo n (cs ++ "\n```".toList) := by
          show replaceGo 0 (c :: (cs ++ "\n```".toList)) = _
          simp only [replaceGo, hm]
        rcases hhead with rfl | ⟨rfl, r, hr⟩
        · obtain ⟨acc, acc1, rfl, rfl, rfl⟩ := lexStep_bt q q1 out hstep
          rw [hre, hts, List.nil_append]
          refine ih n (.inStr acc1) q' ts1 ?_ (fun _ => ⟨acc1, rfl⟩) hfence hrun1
          rw [← hq]; rfl
        · exfalso
          cases cs with
          | nil =>
            have : ("\n```".toList : List Char) = bt :: r := hr
            simp [bt] at this
          | cons b cs' =>
            simp only [List.cons_append, List.cons.injEq] at hr
            obtain ⟨rfl, _⟩ := hr
            rw [lexRun_lf_bt q cs'] at hrun
            cases hrun

/-- A text that `JSON.parse` accepts is still accepted, possibly with another value,
after it is wrapped in a fenced block and cleaned. -/
theorem JSONparse_cleanText_fenced_isSome (inner : List Char) (v : JSValue)
    (h : JSONparse inner = some v) : ∃ w, JSONparse (cleanText (fenced inner)) = some w := by
  unfold JSONparse at h
  cases hl : lex inner with
  | none => simp [hl] at h
  | some ts =>
    rw [hl] at h
    obtain ⟨ts', hlex', hshape⟩ := lexRun_replaceGo inner 0 .start .start ts rfl
      (fun h0 => absurd h0 (Nat.lt_irrefl 0)) (by simp) hl
    have hsome : (parseRun (.value []) ts').isSome = (parseRun (.value []) ts).isSome :=
      parseRun_isSome_shape ts' ts (.value []) (.value []) rfl hshape
    have h' : parseRun (.value []) ts = some v := h
    rw [h', Option.isSome_some] at hsome
    obtain ⟨w, hw⟩ := Option.isSome_iff_exists.mp hsome
    refine ⟨w, ?_⟩
    unfold cleanText replaceFences fenced
    rw [List.append_assoc, replaceGo_open]
    apply JSONparse_trim
    unfold JSONparse lex
    rw [hlex']
    exact hw

/-! ## The properties of the specification -/

/-- C1: when the cleaned provider response is not well-formed JSON, `/api/analyzeResume`
with a non-empty `resumeText` answers 200 with the fixed result: score 50, the five
fixed keywords and the five fixed suggestions, whatever the response and the resume
text were. -/
theorem analyzeResume_malformed_response (env : Env) (resumeText text : List Char)
    (hne : resumeText ≠ [])
    (hgen : env.generateContent (analyzePrompt resumeText) = some text)
    (hbad : JSONparse (cleanText text) = none) :
    (analyzeResume env (some resumeText)).status = 200 ∧
    (analyzeResume env (some resumeText)).body = some (.obj [
      (js "score", .num (.ofNat 50)),
      (js "keywords", .arr [.str (js "resume"), .str (js "experience"), .str (js "skills"),
        .str (js "education"), .str (js "work")]),
      (js "suggestions", .arr [
        .str (js "Unable to parse AI response properly"),
        .str (js "Please try again with a different resume format"),
        .str (js "Ensure your resume has clear sections"),
        .str (js "Include relevant keywords for your industry"),
        .str (js "Format your resume consistently")])]) := by
  cases resumeText with
  | nil => exact absurd rfl hne
  | cons c cs =>
    have hout : analyzeResume env (some (c :: cs)) =
        ⟨200, some analysisFallback, [analyzePrompt (c :: cs)]⟩ := by
      simp only [analyzeResume, hgen, hbad]
    rw [hout]
    exact ⟨rfl, rfl⟩

theorem analyzeResume_malformed_response_witness :
    JSONparse (cleanText "I cannot process this.".toList) = none ∧
    (analyzeResume (answering "I cannot process this.".toList)
      (some "John Doe, Software Engineer".toList)).body = some analysisFallback :=
  ⟨rfl, (analyzeResume_malformed_response (answering "I cannot process this.".toList)
    "John Doe, Software Engineer".toList "I cannot process this.".toList
    (by decide) rfl rfl).2⟩

/-- C2, counterexample: the response
`{"score":80,"keywords":["```"],"suggestions":[]}` is valid JSON matching the
`AnalysisResult` schema, yet decoding its cleaned form gives another value: the
keyword has become the empty string, and that is what `/api/analyzeResume` returns. -/
theorem analyzeResume_fence_in_string_altered :
    (∃ v, JSONparse "\x7b\"score\":80,\"keywords\":[\"```\"],\"suggestions\":[]\x7d".toList
        = some v ∧ isAnalysisResult v = true) ∧
    JSONparse (cleanText "\x7b\"score\":80,\"keywords\":[\"```\"],\"suggestions\":[]\x7d".toList)
      ≠ JSONparse "\x7b\"score\":80,\"keywords\":[\"```\"],\"suggestions\":[]\x7d".toList ∧
    (analyzeResume
        (answering "\x7b\"score\":80,\"keywords\":[\"```\"],\"suggestions\":[]\x7d".toList)
        (some "John Doe".toList)).body
      ≠ JSONparse "\x7b\"score\":80,\"keywords\":[\"```\"],\"suggestions\":[]\x7d".toList := by
  have h1 : JSONparse "\x7b\"score\":80,\"keywords\":[\"```\"],\"suggestions\":[]\x7d".toList =
      some (.obj [(js "score", .num (.ofNat 80)), (js "keywords", .arr [.str (js "```")]),
        (js "suggestions", .arr [])]) := rfl
  have h2 : JSONparse
      (cleanText "\x7b\"score\":80,\"keywords\":[\"```\"],\"suggestions\":[]\x7d".toList) =
      some (.obj [(js "score", .num (.ofNat 80)), (js "keywords", .arr [.str []]),
        (js "suggestions", .arr [])]) := rfl
  have h3 : (analyzeResume
      (answering "\x7b\"score\":80,\"keywords\":[\"```\"],\"suggestions\":[]\x7d".toList)
      (some "John Doe".toList)).body =
      some (.obj [(js "score", .num (.ofNat 80)), (js "keywords", .arr [.str []]),
        (js "suggestions", .arr [])]) := rfl
  refine ⟨⟨_, h1, rfl⟩, ?_, ?_⟩
  · rw [h1, h2]
    intro h
    simp [js, jsString, utf16] at h
  · rw [h1, h3]
    intro h
    simp [js, jsString, utf16] at h

/-- C2, amended: for a provider response that is valid JSON and holds no three
consecutive back-ticks, decoding the cleaned text gives the value the text decodes to,
and `/api/analyzeResume` answers 200 with that value when `res.json` serialises it;
when `res.json` throws on it, the handler answers 500 with `AI analysis failed`. -/
theorem analyzeResume_roundtrip_of_no_fence (env : Env) (resumeText text : List Char)
    (v : JSValue) (hne : resumeText ≠ [])
    (hgen : env.generateContent (analyzePrompt resumeText) = some text)
    (hvalid : JSONparse text = some v) (hfence : ¬ fence <:+: text) :
    JSONparse (cleanText text) = JSONparse text ∧
    (analyzeResume env (some resumeText)).status = (if env.resJson v then 200 else 500) ∧
    (analyzeResume env (some resumeText)).body
      = some (if env.resJson v then v else errorBody "AI analysis failed") := by
  have hclean : JSONparse (cleanText text) = some v := by
    rw [cleanText_eq_trim_of_no_fence text hfence]
    exact JSONparse_trim text v hvalid
  cases resumeText with
  | nil => exact absurd rfl hne
  | cons c cs =>
    have hout : analyzeResume env (some (c :: cs)) =
        (if env.resJson v then ⟨200, some v, [analyzePrompt (c :: cs)]⟩
         else ⟨500, some (errorBody "AI analysis failed"), [analyzePrompt (c :: cs)]⟩) := by
      simp only [analyzeResume, hgen, hclean]
    rw [hout, hclean, hvalid]
    cases env.resJson v <;> exact ⟨rfl, rfl, rfl⟩

theorem analyzeResume_roundtrip_of_no_fence_witness :
    JSONparse " \x7b\"score\":80,\"keywords\":[\"engineer\"],\"suggestions\":[\"add metrics\"]\x7d\n".toList
      = some (.obj [(js "score", .num (.ofNat 80)), (js "keywords", .arr [.str (js "engineer")]),
        (js "suggestions", .arr [.str (js "add metrics")])]) ∧
    (analyzeResume
      (answering " \x7b\"score\":80,\"keywords\":[\"engineer\"],\"suggestions\":[\"add metrics\"]\x7d\n".toList)
      (some "John Doe, Software Engineer".toList)).status = 200 ∧
    (analyzeResume
      (answering " \x7b\"score\":80,\"keywords\":[\"engineer\"],\"suggestions\":[\"add metrics\"]\x7d\n".toList)
      (some "John Doe, Software Engineer".toList)).body
      = some (.obj [(js "score", .num (.ofNat 80)), (js "keywords", .arr [.str (js "engineer")]),
        (js "suggestions", .arr [.str (js "add metrics")])]) :=
  ⟨rfl, (analyzeResume_roundtrip_of_no_fence
    (answering " \x7b\"score\":80,\"keywords\":[\"engineer\"],\"suggestions\":[\"add metrics\"]\x7d\n".toList)
    "John Doe, Software Engineer".toList
    " \x7b\"score\":80,\"keywords\":[\"engineer\"],\"suggestions\":[\"add metrics\"]\x7d\n".toList
    _ (by decide) rfl rfl (by set_option maxRecDepth 8192 in decide)).2⟩

/-- C3, counterexample: the content `1` followed by three back-ticks is not valid JSON,
yet the cleaned form of the fenced block around it decodes (to the number 1). -/
theorem fenced_invalid_inner_decodes :
    ¬ ((JSONparse (cleanText (fenced "1```".toList))).isSome = true ↔
        (JSONparse "1```".toList).isSome = true) := by
  decide

/-- C3, amended: a content that is valid JSON always decodes after the fenced block
around it is cleaned; and for a content without three consecutive back-ticks the cleaner
maps the fenced block to the trimmed content, so decoding the cleaned text is decoding
the trimmed content, and a content that is valid JSON decodes to its own value. -/
theorem fenced_cleaned_decodes (inner : List Char) :
    (∀ v, JSONparse inner = some v → ∃ w, JSONparse (cleanText (fenced inner)) = some w) ∧
    (¬ fence <:+: inner →
      cleanText (fenced inner) = trim inner ∧
      JSONparse (cleanText (fenced inner)) = JSONparse (trim inner) ∧
      (∀ v, JSONparse inner = some v → JSONparse (cleanText (fenced inner)) = some v)) := by
  refine ⟨fun v hv => JSONparse_cleanText_fenced_isSome inner v hv, fun hfence => ?_⟩
  have h := cleanText_fenced_of_no_fence inner hfence
  refine ⟨h, by rw [h], ?_⟩
  intro v hv
  rw [h]
  exact JSONparse_trim inner v hv

theorem fenced_cleaned_decodes_witness :
    (∃ w, JSONparse (cleanText (fenced "\x7b\"a\":\"```json\"\x7d".toList)) = some w) ∧
    cleanText (fenced " \x7b\"score\":80,\"keywords\":[\"engineer\"]\x7d".toList)
      = "\x7b\"score\":80,\"keywords\":[\"engineer\"]\x7d".toList ∧
    JSONparse (cleanText (fenced " \x7b\"score\":80,\"keywords\":[\"engineer\"]\x7d".toList))
      = some (.obj [(js "score", .num (.ofNat 80)),
          (js "keywords", .arr [.str (js "engineer")])]) :=
  ⟨(fenced_cleaned_decodes "\x7b\"a\":\"```json\"\x7d".toList).1 _
      (show JSONparse "\x7b\"a\":\"```json\"\x7d".toList
        = some (.obj [(js "a", .str (js "```json"))]) from rfl),
   ((fenced_cleaned_decodes " \x7b\"score\":80,\"keywords\":[\"engineer\"]\x7d".toList).2
      (by set_option maxRecDepth 8192 in decide)).1,
   ((fenced_cleaned_decodes " \x7b\"score\":80,\"keywords\":[\"engineer\"]\x7d".toList).2
      (by set_option maxRecDepth 8192 in decide)).2.2 _ rfl⟩

/-- C4, counterexample: the response `{}` is well-formed JSON without the required
fields; `/api/analyzeResume` answers 200 with that empty object, which is not a
schema-valid `AnalysisResult`, instead of the fixed result. -/
theorem analyzeResume_returns_schema_invalid :
    (analyzeResume (answering "\x7b\x7d".toList) (some "John Doe".toList)).status = 200 ∧
    (analyzeResume (answering "\x7b\x7d".toList) (some "John Doe".toList)).body
      = some (.obj []) ∧
    isAnalysisResult (.obj []) = false :=
  ⟨rfl, rfl, rfl⟩

/-- C4, amended: once the provider has answered, `/api/analyzeResume` answers 200 with
the fixed result, which is a schema-valid `AnalysisResult`, when the cleaned response is
not well-formed JSON; otherwise it answers 200 with the decoded value as it is, whatever
its shape, when `res.json` serialises that value, and 500 with `AI analysis failed`
when `res.json` throws on it. -/
theorem analyzeResume_result (env : Env) (resumeText text : List Char)
    (hne : resumeText ≠ [])
    (hgen : env.generateContent (analyzePrompt resumeText) = some text) :
    isAnalysisResult analysisFallback = true ∧
    ((JSONparse (cleanText text) = none ∧
        (analyzeResume env (some resumeText)).status = 200 ∧
        (analyzeResume env (some resumeText)).body = some analysisFallback) ∨
      (∃ v, JSONparse (cleanText text) = some v ∧
        (analyzeResume env (some resumeText)).status
          = (if env.resJson v then 200 else 500) ∧
        (analyzeResume env (some resumeText)).body
          = some (if env.resJson v then v else errorBody "AI analysis failed"))) := by
  cases resumeText with
  | nil => exact absurd rfl hne
  | cons c cs =>
    refine ⟨rfl, ?_⟩
    cases hp : JSONparse (cleanText text) with
    | none =>
      left
      have hout : analyzeResume env (some (c :: cs)) =
          ⟨200, some analysisFallback, [analyzePrompt (c :: cs)]⟩ := by
        simp only [analyzeResume, hgen, hp]
      rw [hout]
      exact ⟨rfl, rfl, rfl⟩
    | some v =>
      right
      have hout : analyzeResume env (some (c :: cs)) =
          (if env.resJson v then ⟨200, some v, [analyzePrompt (c :: cs)]⟩
           else ⟨500, some (errorBody "AI analysis failed"), [analyzePrompt (c :: cs)]⟩) := by
        simp only [analyzeResume, hgen, hp]
      rw [hout]
      refine ⟨v, rfl, ?_⟩
      cases env.resJson v <;> exact ⟨rfl, rfl⟩

theorem analyzeResume_result_witness :
    isAnalysisResult analysisFallback = true ∧
    ((JSONparse (cleanText "\x7b\"score\":150\x7d".toList) = none ∧
        (analyzeResume (answering "\x7b\"score\":150\x7d".toList)
          (some "John Doe".toList)).status = 200 ∧
        (analyzeResume (answering "\x7b\"score\":150\x7d".toList)
          (some "John Doe".toList)).body = some analysisFallback) ∨
      (∃ v, JSONparse (cleanText "\x7b\"score\":150\x7d".toList) = some v ∧
        (analyzeResume (answering "\x7b\"score\":150\x7d".toList)
          (some "John Doe".toList)).status = 200 ∧
        (analyzeResume (answering "\x7b\"score\":150\x7d".toList)
          (some "John Doe".toList)).body = some v)) :=
  analyzeResume_result (answering "\x7b\"score\":150\x7d".toList) "John Doe".toList
    "\x7b\"score\":150\x7d".toList (by decide) rfl

/-- C5: with the response `not json`, `/api/labels/:lang` answers 200 with an object
holding a single property, named `[object Object]`, whose value is the whole English
label object; the 22 label keys are not keys of the result. -/
theorem getLabels_malformed_response (lang : List Char) :
    (getLabels (answering "not json".toList) lang).status = 200 ∧
    (getLabels (answering "not json".toList) lang).body
      = some (.obj [(js "[object Object]", .obj englishLabels)]) ∧
    englishLabels.length = 22 ∧
    getProp [(js "[object Object]", .obj englishLabels)] (js "fullName") = none :=
  ⟨rfl, rfl, rfl, rfl⟩

/-- C6: with a plain-text upload and the response `not json`, `/api/analyzeResumeFile`
answers 500 with the error `File analysis failed`, after one call of the provider. -/
theorem analyzeResumeFile_malformed_response (buffer : List Nat) :
    (analyzeResumeFile (answering "not json".toList) (some ⟨"text/plain", buffer⟩)).status
      = 500 ∧
    (analyzeResumeFile (answering "not json".toList) (some ⟨"text/plain", buffer⟩)).body
      = some (errorBody "File analysis failed") ∧
    (analyzeResumeFile (answering "not json".toList)
      (some ⟨"text/plain", buffer⟩)).prompts.length = 1 :=
  ⟨rfl, rfl, rfl⟩

/-- C7: when the cleaned provider response is not well-formed JSON,
`/api/translateResume` answers 200 with the `resumeData` it received, unchanged. -/
theorem translateResume_malformed_response (env : Env) (resumeData : Option JSValue)
    (targetLang text : List Char)
    (hgen : env.generateContent (translatePrompt env resumeData targetLang) = some text)
    (hbad : JSONparse (cleanText text) = none) :
    (translateResume env resumeData targetLang).status = 200 ∧
    (translateResume env resumeData targetLang).body = resumeData := by
  have hout : translateResume env resumeData targetLang =
      ⟨200, resumeData, [translatePrompt env resumeData targetLang]⟩ := by
    simp only [translateResume, hgen, hbad]
  rw [hout]
  exact ⟨rfl, rfl⟩

theorem translateResume_malformed_response_witness :
    JSONparse (cleanText "not json".toList) = none ∧
    (translateResume (answering "not json".toList)
      (some (.obj [(js "fullName", .str (js "John Doe"))])) "fr".toList).body
      = some (.obj [(js "fullName", .str (js "John Doe"))]) :=
  ⟨rfl, (translateResume_malformed_response (answering "not json".toList)
    (some (.obj [(js "fullName", .str (js "John Doe"))])) "fr".toList "not json".toList
    rfl rfl).2⟩

/-- C8: on a text without three consecutive back-ticks the cleaner, a total function,
returns the text with leading and trailing white space trimmed. -/
theorem cleanText_of_no_fence (text : List Char) (hfence : ¬ fence <:+: text) :
    cleanText text = trim text :=
  cleanText_eq_trim_of_no_fence text hfence

theorem cleanText_of_no_fence_witness :
    cleanText "  \x7b\"score\": 80\x7d \n".toList = "\x7b\"score\": 80\x7d".toList :=
  cleanText_of_no_fence "  \x7b\"score\": 80\x7d \n".toList (by decide)

/-- C9: an upload whose mimetype is none of the three supported ones is answered 400
with `Unsupported file type`, and a request without a file 400 with `No file uploaded`;
in both cases no prompt is sent to the provider. -/
theorem analyzeResumeFile_caller_errors (env : Env) (file : UploadedFile)
    (hmime : file.mimetype ∉ supportedMimetypes) :
    (analyzeResumeFile env (some file)).status = 400 ∧
    (analyzeResumeFile env (some file)).body = some (errorBody "Unsupported file type") ∧
    (analyzeResumeFile env (some file)).prompts = [] ∧
    (analyzeResumeFile env none).status = 400 ∧
    (analyzeResumeFile env none).body = some (errorBody "No file uploaded") ∧
    (analyzeResumeFile env none).prompts = [] := by
  simp only [supportedMimetypes, List.mem_cons, List.mem_singleton, List.not_mem_nil,
    or_false, not_or] at hmime
  obtain ⟨h1, h2, h3⟩ := hmime
  have hout : analyzeResumeFile env (some file) =
      ⟨400, some (errorBody "Unsupported file type"), []⟩ := by
    simp only [analyzeResumeFile, if_neg h1, if_neg h2, if_neg h3]
  rw [hout]
  exact ⟨rfl, rfl, rfl, rfl, rfl, rfl⟩

theorem analyzeResumeFile_caller_errors_witness :
    (analyzeResumeFile (answering "not json".toList) (some ⟨"image/png", [137, 80]⟩)).prompts
      = [] :=
  (analyzeResumeFile_caller_errors (answering "not json".toList) ⟨"image/png", [137, 80]⟩
    (by decide)).2.2.1

/-- C10: with the response `not json`, `/api/languages` answers 200 and passes
`undefined` to `res.json`: no sequence, not even the empty one, is returned. -/
theorem getLanguages_malformed_response :
    (getLanguages (answering "not json".toList)).status = 200 ∧
    (getLanguages (answering "not json".toList)).body = none ∧
    (getLanguages (answering "not json".toList)).body ≠ some (.arr []) :=
  ⟨rfl, rfl, fun h => Option.noConfusion
    ((show (getLanguages (answering "not json".toList)).body = none from rfl).symm.trans h)⟩

/-! ## Sample evaluations -/

example : cleanText "```json\n\x7b\"a\":1\x7d\n```".toList = "\x7b\"a\":1\x7d".toList := by decide
example : cleanText "  ```json x ```\n  y ```j```json\n\n".toList = "x \n  y j".toList := by decide
example : cleanText "not json".toList = "not json".toList := rfl
example : ¬ (fence <:+: "not json".toList) := by decide
example : JSONparse "\x7b\"a\":1\x7d".toList = some (.obj [(js "a", .num (.ofNat 1))]) := rfl
example : JSONparse " [1, -2.50e+3 ,true,null, \"x\\u00e9\\n\" ] ".toList =
  some (.arr [.num (.ofNat 1), .num ⟨true, 250, 2, false, 3⟩, .bool true, .null,
    .str [120, 233, 10]]) := rfl
example : JSONparse "not json".toList = none := rfl
example : JSONparse "".toList = none := rfl
example : JSONparse "01".toList = none := rfl
example : JSONparse "[1,]".toList = none := rfl
example : JSONparse "\x7b\"a\":1,\"b\":[],\"a\":\x7b\x7d\x7d".toList =
  some (.obj [(js "a", .obj []), (js "b", .arr [])]) := rfl
example : JSONparse "1 2".toList = none := rfl
example : JSONparse "\"a\tb\"".toList = none := rfl
example : JSONparse "-".toList = none := rfl
example : JSONparse "1.".toList = none := rfl
example : JSONparse "tru".toList = none := rfl
example : JSONparse "nulll".toList = none := rfl
example : JSONparse "\"\\ud83d\\ude00\"".toList = some (.str (js "😀")) := rfl

end Resumify
